import Mathlib

/-!
Verification of the git-herd discovery-and-bounded-concurrent-processing
engine against its natural-language specification.

The definitions below are a shallow embedding of the Go source:
  * `pkg/types`                — `OperationType`, `Config`, `GitRepo`
  * `internal/git` (processor) — `AnalyzeRepo`, `discardFiles`, `ProcessRepo`
  * `internal/git` (scanner)   — `FindRepos` (a `filepath.WalkDir` walk)
  * `internal/worker`          — `Execute`, `executeInPlainMode`,
                                 `processReposConcurrently`, `displayResults`
  * `internal/tui`             — the bubbletea `Model.Update` message loop
                                 with `processRepos` / `processNextRepo`

External collaborators (go-git, the filesystem, the network) are modelled by
an explicit `RepoState` value per repository path and by an `FsTree` value
for the scanner.  Mutations the processor performs on the world (file
discards, fetch, pull) are returned as an explicit `Effect` list, and the
possibly-mutated `RepoState` is returned alongside the result, so that
frame/idempotence properties can be stated.  Wall-clock durations are not
modelled (the spec itself exempts `duration` from determinism).
-/

namespace GitHerd

/-- `sub` is a prefix of `l` (character lists). -/
def charsPrefixOf : List Char → List Char → Bool
  | [], _ => true
  | _ :: _, [] => false
  | a :: as, b :: bs => a == b && charsPrefixOf as bs

/-- `sub` occurs as a contiguous infix of `l` (character lists). -/
def charsInfixOf (sub : List Char) : List Char → Bool
  | [] => charsPrefixOf sub []
  | b :: bs => charsPrefixOf sub (b :: bs) || charsInfixOf sub bs

/-- Go `strings.Contains s sub` (`sub` occurs as a substring of `s`). -/
def stringsContains (s sub : String) : Bool :=
  charsInfixOf sub.toList s.toList

/-- Split a character list at every `/` (Go `strings.Split` on `"/"`). -/
def splitOnSlash : List Char → List (List Char)
  | [] => [[]]
  | c :: cs =>
    match splitOnSlash cs with
    | [] => [[]]
    | w :: ws => if c = '/' then [] :: w :: ws else (c :: w) :: ws

/-- Go `filepath.Base`: last non-empty path element; `""` gives `"."` and a
pure-slash path gives `"/"` (the cases exercised here are ordinary paths). -/
def filepathBase (p : String) : String :=
  match ((splitOnSlash p.toList).filter (fun s => s ≠ [])).getLast? with
  | some s => String.mk s
  | none => if p = "" then "." else "/"

/-- `pkg/types.OperationType` with its three constants. -/
inductive OperationType where
  | fetch
  | pull
  | scan
deriving Repr, DecidableEq

/-- `pkg/types.Config`.  `workers` is an `Int` because the Go field is a
plain `int` and `tui.processRepos` clamps non-positive values; `timeout` is
the duration in nanoseconds. -/
structure Config where
  workers : Int
  operation : OperationType
  dryRun : Bool
  recursive : Bool
  skipDirty : Bool
  verbose : Bool
  timeout : Int
  excludeDirs : List String
  plainMode : Bool
  fullSummary : Bool
  saveReport : String
  discardFiles : List String
  exportScan : String
deriving Repr, DecidableEq

/-- `pkg/types.GitRepo`.  `error` is the Go `error` field as its message
string (`none` = nil).  The wall-clock `Duration` field is not modelled. -/
structure GitRepo where
  path : String
  name : String
  hasGit : Bool
  clean : Bool
  branch : String
  remote : String
  error : Option String
  lastCommit : String
  lastCommitMsg : String
  modifiedFiles : List String
deriving Repr, DecidableEq

/-- One entry of the go-git worktree status map: a file plus its worktree
and staging modification flags (`Unmodified` = `false`). -/
structure FileEntry where
  file : String
  worktreeModified : Bool
  stagingModified : Bool
deriving Repr, DecidableEq

/-- A file counts as modified when its worktree or staging status is not
`Unmodified` (the test used by `AnalyzeRepo` and `discardFiles`). -/
def FileEntry.isModified (e : FileEntry) : Bool :=
  e.worktreeModified || e.stagingModified

/-- go-git `status.IsClean()`: every entry unmodified. -/
def statusIsClean (status : List FileEntry) : Bool :=
  status.all (fun e => !e.isModified)

/-- Names of the modified files, in status order (`AnalyzeRepo`'s
`ModifiedFiles` collection loop). -/
def modifiedNames (status : List FileEntry) : List String :=
  (status.filter FileEntry.isModified).map (fun e => e.file)

/-- The state of one on-disk repository as seen through the go-git backend:
which backend calls succeed, the HEAD/commit data, the worktree status, the
remotes, which per-file `git checkout` discards would fail, and the outcome
of a fetch/pull against the remote (`none` = success or already-up-to-date,
which `fetchRepo`/`pullRepo` both treat as success). -/
structure RepoState where
  openOk : Bool
  headOk : Bool
  headIsBranch : Bool
  branchName : String
  headHash : String
  commitOk : Bool
  commitMessage : String
  worktreeOk : Bool
  statusOk : Bool
  status : List FileEntry
  remotes : List String
  discardFails : List String
  fetchErr : Option String
  pullErr : Option String
deriving Repr, DecidableEq

/-- First line of a commit message (`strings.Split(msg, "\n")[0]`). -/
def firstLine (s : String) : String :=
  String.mk (s.toList.takeWhile (fun c => c ≠ '\n'))

/-- Short hash: the first 8 characters (`head.Hash().String()[:8]`). -/
def shortHash (h : String) : String :=
  String.mk (h.toList.take 8)

/-- `Processor.AnalyzeRepo`: open the repository, read HEAD/branch, last
commit, worktree cleanliness, modified files and the first remote, setting
`error` and returning early at the first backend failure.  A `Remotes()`
error is modelled by the empty remotes list (it leaves `remote` unset in
the source as well). -/
def analyzeRepo (st : RepoState) (repo : GitRepo) : GitRepo :=
  if !st.openOk then
    { repo with error := some "failed to open repository" }
  else if !st.headOk then
    { repo with error := some "failed to get HEAD" }
  else
    let repo := { repo with
      branch := if st.headIsBranch then st.branchName else "detached" }
    let repo :=
      if st.commitOk then
        { repo with lastCommit := shortHash st.headHash
                    lastCommitMsg := firstLine st.commitMessage }
      else repo
    if !st.worktreeOk then
      { repo with error := some "failed to get worktree" }
    else if !st.statusOk then
      { repo with error := some "failed to get status" }
    else
      let repo := { repo with
        clean := statusIsClean st.status
        modifiedFiles := modifiedNames st.status }
      match st.remotes with
      | [] => repo
      | r :: _ => { repo with remote := r }

/-- A mutation of, or network operation against, one repository. -/
inductive Effect where
  | discardFile (file : String)
  | fetchRemote
  | pullRemote
deriving Repr, DecidableEq

/-- Glob matching as used through `filepath.Match(pattern, base)`.
`*` and `?` wildcards and literal characters are modelled; character
classes and escapes (unused by the patterns in scope) are not.  The fuel
argument only bounds the recursion depth: every recursive call shrinks
`pattern`-plus-`name` length, so the fuel chosen by `globMatch` is never
exhausted. -/
def globMatchFuel : Nat → List Char → List Char → Bool
  | 0, _, _ => false
  | fuel + 1, pattern, name =>
    match pattern, name with
    | [], [] => true
    | [], _ :: _ => false
    | '*' :: ps, [] => globMatchFuel fuel ps []
    | '*' :: ps, c :: ns =>
      globMatchFuel fuel ps (c :: ns) || globMatchFuel fuel ('*' :: ps) ns
    | '?' :: ps, _ :: ns => globMatchFuel fuel ps ns
    | '?' :: _, [] => false
    | p :: ps, c :: ns => p == c && globMatchFuel fuel ps ns
    | _ :: _, [] => false

/-- String-level glob match. -/
def globMatch (pattern name : String) : Bool :=
  globMatchFuel (pattern.toList.length + name.toList.length + 1)
    pattern.toList name.toList

/-- The per-file pattern test of `Processor.discardFiles`: a glob match on
the base name, an exact match on the full path, or an exact match on the
base name. -/
def matchesDiscard (patterns : List String) (file : String) : Bool :=
  patterns.any (fun pattern =>
    globMatch pattern (filepathBase file) ||
    file == pattern || filepathBase file == pattern)

/-- The files `Processor.discardFiles` selects for discarding: modified
entries whose name matches a configured pattern, in status order. -/
def discardTargets (patterns : List String) (status : List FileEntry) : List String :=
  ((status.filter FileEntry.isModified).filter
    (fun e => matchesDiscard patterns e.file)).map (fun e => e.file)

/-- Effect of a successful `git checkout HEAD -- file` on the status: the
file's entry becomes unmodified. -/
def applyDiscard (st : RepoState) (f : String) : RepoState :=
  { st with status := st.status.map (fun e =>
      if e.file == f then { e with worktreeModified := false, stagingModified := false }
      else e) }

/-- The discard loop of `Processor.discardFiles`: run `git checkout` per
selected file in order; the first failing checkout aborts with an error
(files before it have already been discarded).  Returns the error, the
mutated state and the discard effects performed. -/
def runDiscards (st : RepoState) : List String → Option String × RepoState × List Effect
  | [] => (none, st, [])
  | f :: fs =>
    if st.discardFails.contains f then
      (some ("failed to discard " ++ f), st, [])
    else
      let out := runDiscards (applyDiscard st f) fs
      (out.1, out.2.1, Effect.discardFile f :: out.2.2)

/-- `Processor.discardFiles`: fetch worktree and status (each can fail),
select the matching modified files and discard them in order. -/
def discardFilesStep (cfg : Config) (st : RepoState) : Option String × RepoState × List Effect :=
  if !st.worktreeOk then (some "failed to get worktree", st, [])
  else if !st.statusOk then (some "failed to get status", st, [])
  else runDiscards st (discardTargets cfg.discardFiles st.status)

/-- Result of processing one repository: the `GitRepo` result, the
possibly-mutated repository state, and the effects performed. -/
structure ProcOut where
  result : GitRepo
  state : RepoState
  effects : List Effect
deriving Repr, DecidableEq

/-- Pipeline steps 1-2 of `Processor.ProcessRepo`: the initial analysis and
the conditional discard (run whenever discard patterns are configured and
the tree is dirty, for every operation) followed by re-analysis.
`Except.error` is the pipeline's early `return repo` on a failure. -/
def analyzeAndDiscard (cfg : Config) (st : RepoState) (repo0 : GitRepo) :
    Except ProcOut (GitRepo × RepoState × List Effect) :=
  let repo := analyzeRepo st repo0
  if repo.error ≠ none then
    Except.error ⟨repo, st, []⟩
  else if !cfg.discardFiles.isEmpty && !repo.clean then
    if !st.openOk then
      Except.error ⟨{ repo with error := some "failed to open repository for discard" }, st, []⟩
    else
      match discardFilesStep cfg st with
      | (some e, st', effs) =>
        Except.error ⟨{ repo with error := some ("failed to discard files: " ++ e) }, st', effs⟩
      | (none, st', effs) =>
        Except.ok (analyzeRepo st' repo, st', effs)
  else
    Except.ok (repo, st, [])

/-- Pipeline steps 3-5 of `Processor.ProcessRepo`: the dirty gate (scan is
exempt), the dry-run short-circuit, re-opening the repository, and the
operation dispatch (`fetchRepo` / `pullRepo` treat already-up-to-date as
success; scan returns the analysis as the result). -/
def processTail (cfg : Config) (st : RepoState) (repo : GitRepo)
    (effs : List Effect) : ProcOut :=
  if cfg.skipDirty && !repo.clean && cfg.operation ≠ OperationType.scan then
    ⟨{ repo with error := some "repository has uncommitted changes (skipped)" }, st, effs⟩
  else if cfg.dryRun then
    ⟨repo, st, effs⟩
  else if !st.openOk then
    ⟨{ repo with error := some "failed to open repository" }, st, effs⟩
  else
    match cfg.operation with
    | OperationType.fetch =>
      match st.fetchErr with
      | none => ⟨repo, st, effs ++ [Effect.fetchRemote]⟩
      | some e => ⟨{ repo with error := some ("fetch failed: " ++ e) }, st, effs ++ [Effect.fetchRemote]⟩
    | OperationType.pull =>
      if !st.worktreeOk then
        ⟨{ repo with error := some "failed to get worktree" }, st, effs⟩
      else
        match st.pullErr with
        | none => ⟨repo, st, effs ++ [Effect.pullRemote]⟩
        | some e => ⟨{ repo with error := some ("pull failed: " ++ e) }, st, effs ++ [Effect.pullRemote]⟩
    | OperationType.scan => ⟨repo, st, effs⟩

/-- `Processor.ProcessRepo`: the full per-repository pipeline. -/
def processRepo (cfg : Config) (st : RepoState) (repo0 : GitRepo) : ProcOut :=
  match analyzeAndDiscard cfg st repo0 with
  | Except.error out => out
  | Except.ok (repo, st', effs) => processTail cfg st' repo effs

/-! ## Scanner (`Scanner.FindRepos`, a `filepath.WalkDir` walk)

The directory tree is an explicit `FsTree`.  `WalkDir` visits the root and
then each directory's entries in order; returning `filepath.SkipDir` from a
directory's callback skips its whole subtree.  The callback in the source:
files are ignored before any other check; a directory whose path contains
any configured exclusion token is skipped with its subtree; a directory is
recorded as a repository when `os.Stat(path/.git)` succeeds — a pure
existence check, satisfied by a regular file named `.git` as well as by a
directory; after recording, the subtree is skipped when `recursive` is
false.  Cooperative cancellation aborts the whole walk; the model covers
the uncancelled walk, which is the case the claims quantify over. -/

/-- A directory tree: named files and named directories with children. -/
inductive FsTree where
  | file (name : String)
  | dir (name : String) (children : List FsTree)
deriving Repr

/-- The name of a directory entry. -/
def FsTree.entryName : FsTree → String
  | .file n => n
  | .dir n _ => n

/-- The exclusion test of `FindRepos`: the directory's path contains some
configured exclusion token as a substring. -/
def isExcluded (cfg : Config) (path : String) : Bool :=
  cfg.excludeDirs.any (fun ex => stringsContains path ex)

/-- The repository marker test: the directory directly contains an entry
named `.git` (file or directory — `os.Stat` existence only). -/
def hasGitMarker (children : List FsTree) : Bool :=
  children.any (fun c => c.entryName == ".git")

/-- The descriptor `FindRepos` records for a repository directory
(`types.GitRepo{Path: path, Name: filepath.Base(path), HasGit: true}`,
all other fields zero-valued). -/
def foundRepo (path : String) : GitRepo :=
  { path := path, name := filepathBase path, hasGit := true, clean := false,
    branch := "", remote := "", error := none, lastCommit := "",
    lastCommitMsg := "", modifiedFiles := [] }

mutual

/-- The `WalkDir` traversal of one entry at `path`, returning the
descriptors recorded in its subtree. -/
def walkVisit (cfg : Config) (path : String) : FsTree → List GitRepo
  | .file _ => []
  | .dir _ children =>
    if isExcluded cfg path then []
    else
      let found := if hasGitMarker children then [foundRepo path] else []
      if hasGitMarker children && !cfg.recursive then found
      else found ++ walkChildren cfg path children

/-- Traversal of a directory's entries in order. -/
def walkChildren (cfg : Config) (path : String) : List FsTree → List GitRepo
  | [] => []
  | c :: cs =>
    walkVisit cfg (path ++ "/" ++ c.entryName) c ++ walkChildren cfg path cs

end

/-- `Scanner.FindRepos` on an uncancelled walk (the progress callback does
not affect the returned list and is omitted). -/
def findRepos (cfg : Config) (rootPath : String) (root : FsTree) : List GitRepo :=
  walkVisit cfg rootPath root

/-! ## Worker-pool manager (`internal/worker/manager.go`)

`processReposConcurrently` submits one `ProcessRepo` task per descriptor to
an errgroup with `SetLimit(Workers)` and drains a buffered result channel;
on an uncancelled run every descriptor produces exactly one result, which
arrives at `displayResults` in completion order — some permutation of the
submission-order list modelled by `processReposResults`.  The world is a
function from repository path to `RepoState`, so each task's result depends
only on its own repository's state. -/

/-- The complete result multiset of a run, in submission order: one
`ProcessRepo` result per discovered descriptor. -/
def processReposResults (cfg : Config) (w : String → RepoState)
    (repos : List GitRepo) : List GitRepo :=
  repos.map (fun r => (processRepo cfg (w r.path) r).result)

/-- The result classification of `displayResults`: a result is skipped when
its error message contains the `"skipped"` marker. -/
def resultIsSkipped (r : GitRepo) : Bool :=
  match r.error with
  | some e => stringsContains e "skipped"
  | none => false

/-- A result counts as failed when it carries an error without the
`"skipped"` marker. -/
def resultIsFailed (r : GitRepo) : Bool :=
  match r.error with
  | some e => !stringsContains e "skipped"
  | none => false

/-- A result counts as successful when its error is nil. -/
def resultIsSuccess (r : GitRepo) : Bool :=
  r.error.isNone

/-- The counter accumulation of the `displayResults` receive loop, as
`(successful, failed, skipped)`.  Each result increments exactly one
counter; the loop's arrival order does not affect the totals. -/
def countResults : List GitRepo → Nat × Nat × Nat
  | [] => (0, 0, 0)
  | r :: rs =>
    let c := countResults rs
    match r.error with
    | some e =>
      if stringsContains e "skipped" then (c.1, c.2.1, c.2.2 + 1)
      else (c.1, c.2.1 + 1, c.2.2)
    | none => (c.1 + 1, c.2.1, c.2.2)

/-- The run-level error of `displayResults`: `some "<n> repositories
failed"` exactly when the failed counter is positive. -/
def displayResultsErr (results : List GitRepo) : Option String :=
  let c := countResults results
  if 0 < c.2.1 then some (toString c.2.1 ++ " repositories failed") else none

/-- `Manager.executeInPlainMode`: scan (a scan error is returned as a hard
run failure), return nil on an empty repository list, otherwise process and
report through `displayResults`. -/
def executeInPlainMode (cfg : Config) (w : String → RepoState)
    (scanOutcome : Except String (List GitRepo)) : Option String :=
  match scanOutcome with
  | Except.error e => some ("failed to find repositories: " ++ e)
  | Except.ok repos =>
    if repos.length = 0 then none
    else displayResultsErr (processReposResults cfg w repos)

/-- `Manager.Execute`: with neither `PlainMode` nor `Verbose` set, run the
TUI program (`tuiRunOk` = its `p.Run()` succeeded) and return nil on
success, falling back to plain mode on a TUI error; otherwise run in plain
mode. -/
def execute (cfg : Config) (w : String → RepoState)
    (scanOutcome : Except String (List GitRepo)) (tuiRunOk : Bool) : Option String :=
  if !cfg.plainMode && !cfg.verbose then
    if tuiRunOk then none
    else executeInPlainMode cfg w scanOutcome
  else executeInPlainMode cfg w scanOutcome

/-! ## Worker-pool scheduling (errgroup with `SetLimit`)

The submission loop of `processReposConcurrently` interleaved with worker
completions and context cancellation, as a small-step system.  `start`
models `errgroup.Go` admitting a queued task once a slot is free: it
requires a free slot and queued work but — faithfully to
`golang.org/x/sync/errgroup` — does not consult the cancellation flag, as
`Group.Go` never checks the context before running a queued function.
`finish` models a worker returning (its result lands in the buffered
channel, so `done` also counts retained results).  `cancel` models the
shared context being cancelled. -/

/-- A scheduling event of the worker pool. -/
inductive PoolEvent where
  | start
  | finish
  | cancel
deriving Repr, DecidableEq

/-- A worker-pool state: queued descriptors, tasks in flight, results
produced, and whether the shared context has been cancelled. -/
structure PoolState where
  queued : Nat
  active : Nat
  done : Nat
  cancelled : Bool
deriving Repr, DecidableEq

/-- The initial pool state over `n` discovered descriptors. -/
def poolInit (n : Nat) : PoolState :=
  { queued := n, active := 0, done := 0, cancelled := false }

/-- One scheduling step; `none` when the event is not enabled. -/
def poolStep (limit : Nat) (s : PoolState) : PoolEvent → Option PoolState
  | PoolEvent.start =>
    if 0 < s.queued ∧ s.active < limit then
      some { s with queued := s.queued - 1, active := s.active + 1 }
    else none
  | PoolEvent.finish =>
    if 0 < s.active then
      some { s with active := s.active - 1, done := s.done + 1 }
    else none
  | PoolEvent.cancel => some { s with cancelled := true }

/-- Run a sequence of scheduling events from a state. -/
def runPool (limit : Nat) (s : PoolState) : List PoolEvent → Option PoolState
  | [] => some s
  | e :: evs =>
    match poolStep limit s e with
    | none => none
    | some s' => runPool limit s' evs

/-! ## Incremental dispatch state machine (`internal/tui/model.go`)

The bubbletea model and its `Update` function.  Spinner/progress widgets
and the cancellable context value are UI plumbing and are not part of the
state the claims are about; a key press is modelled only as the quit
chord (any other key leaves the model unchanged and is omitted).
Commands returned by `Update` are data: a `dispatch idx` command launches
`ProcessRepo` on `repos[idx]` asynchronously and its completion delivers a
`repoProcessed` message; `quit` terminates the message loop, after which no
further `Update` call — and hence no further dispatch — occurs; `cancelCtx`
is `m.cancel()` on the shared context. -/

/-- The loop-owned fields of `tui.Model`. -/
structure TuiModel where
  cfg : Config
  repos : List GitRepo
  processed : Nat
  results : List GitRepo
  scanning : Bool
  processing : Bool
  done : Bool
  phase : String
  errMsg : Option String
  nextIndex : Nat
deriving Repr, DecidableEq

/-- The messages `Update` reacts to. -/
inductive TuiMsg where
  | keyQuit
  | reposFound (repos : List GitRepo)
  | repoProcessed (r : GitRepo)
  | processingDone (err : Option String)

/-- The commands `Update` returns, as data. -/
inductive TuiCmd where
  | quit
  | cancelCtx
  | printNewline
  | reportDone
  | dispatch (idx : Nat)
deriving Repr, DecidableEq

/-- Whether a command launches a new per-repository operation. -/
def TuiCmd.isDispatch : TuiCmd → Bool
  | .dispatch _ => true
  | _ => false

/-- The clamped worker count of `tui.processRepos` (`workerCount <= 0`
falls back to 1). -/
def workerCount (cfg : Config) : Nat :=
  if cfg.workers ≤ 0 then 1 else cfg.workers.toNat

/-- `tui.Model.processNextRepo`: if undispatched descriptors remain, claim
the next index and launch its operation. -/
def processNextRepo (m : TuiModel) : TuiModel × List TuiCmd :=
  if m.nextIndex < m.repos.length then
    ({ m with nextIndex := m.nextIndex + 1 }, [TuiCmd.dispatch m.nextIndex])
  else (m, [])

/-- The launch loop of `tui.Model.processRepos`: up to `fuel` calls to
`processNextRepo` while undispatched descriptors remain. -/
def processReposLoop : Nat → TuiModel → TuiModel × List TuiCmd
  | 0, m => (m, [])
  | fuel + 1, m =>
    if m.nextIndex < m.repos.length then
      let out := processNextRepo m
      let rest := processReposLoop fuel out.1
      (rest.1, out.2 ++ rest.2)
    else (m, [])

/-- `tui.Model.processRepos`: launch the initial batch of at most
`workerCount` operations; with nothing to launch, report completion. -/
def processRepos (m : TuiModel) : TuiModel × List TuiCmd :=
  let out := processReposLoop (workerCount m.cfg) m
  if out.2.isEmpty then (out.1, [TuiCmd.reportDone])
  else out

/-- `tui.Model.Update` on the messages of the processing lifecycle. -/
def update (m : TuiModel) : TuiMsg → TuiModel × List TuiCmd
  | TuiMsg.keyQuit => (m, [TuiCmd.cancelCtx, TuiCmd.quit])
  | TuiMsg.reposFound rs =>
    let m := { m with repos := rs, scanning := false, processing := true,
                      phase := "processing", nextIndex := 0 }
    if rs.length = 0 then
      ({ m with done := true, phase := "complete" }, [TuiCmd.quit])
    else
      processRepos m
  | TuiMsg.repoProcessed r =>
    let m := { m with results := m.results ++ [r], processed := m.processed + 1 }
    if m.repos.length ≤ m.processed then
      ({ m with processing := false, done := true, phase := "complete" },
       [TuiCmd.printNewline, TuiCmd.quit])
    else if m.nextIndex < m.repos.length then
      processNextRepo m
    else (m, [])
  | TuiMsg.processingDone e =>
    ({ m with processing := false, done := true, phase := "complete", errMsg := e },
     [TuiCmd.printNewline, TuiCmd.quit])

/-- The dispatch-window invariant of the processing phase: the dispatch
index always sits at `min(processed + workerCount, total)`, so the in-flight
window `nextIndex - processed` is `min(workerCount, total - processed)`. -/
def TuiInv (m : TuiModel) : Prop :=
  m.nextIndex = min (m.processed + workerCount m.cfg) m.repos.length

/-! ## Concrete instances used by witnesses and counterexamples -/

/-- A plain-mode fetch configuration with the defaults of
`config.DefaultConfig` relevant to the core (5 workers, skip-dirty). -/
def witCfg : Config :=
  { workers := 5, operation := OperationType.fetch, dryRun := false,
    recursive := true, skipDirty := true, verbose := false,
    timeout := 300000000000, excludeDirs := [".git", "node_modules", "vendor"],
    plainMode := true, fullSummary := false, saveReport := "",
    discardFiles := [], exportScan := "" }

/-- A healthy, clean repository state. -/
def stOkClean : RepoState :=
  { openOk := true, headOk := true, headIsBranch := true, branchName := "main",
    headHash := "0123456789abcdef", commitOk := true,
    commitMessage := "initial commit", worktreeOk := true, statusOk := true,
    status := [], remotes := ["origin"], discardFails := [],
    fetchErr := none, pullErr := none }

/-- A healthy repository state whose worktree has one modified file. -/
def stDirty : RepoState :=
  { stOkClean with
    status := [{ file := "notes.txt", worktreeModified := true, stagingModified := false }] }

/-- A repository state that cannot even be opened. -/
def stBroken : RepoState :=
  { stOkClean with openOk := false }

/-- A world with one clean, one dirty and one broken repository. -/
def witWorld : String → RepoState :=
  fun p => if p = "/w/a" then stOkClean else if p = "/w/b" then stDirty else stBroken

/-- The three descriptors the scanner would hand to the manager. -/
def witRepos : List GitRepo :=
  [foundRepo "/w/a", foundRepo "/w/b", foundRepo "/w/c"]

/-- A world whose every repository is healthy and clean. -/
def witWorldAlt : String → RepoState :=
  fun _ => stOkClean

/-- A world whose every repository fails to open. -/
def witWorldBroken : String → RepoState :=
  fun _ => stBroken

/-- The default configuration with the TUI enabled (neither plain mode nor
verbose). -/
def witCfgTui : Config :=
  { witCfg with plainMode := false }

/-- The exclusion set of the spec's exclusion-correctness example. -/
def witCfgExcl : Config :=
  { witCfg with excludeDirs := ["node_modules", "vendor"] }

/-- The tree of the spec's exclusion-correctness example:
`project/.git`, `node_modules/.git`, `vendor/.git`. -/
def tree7 : FsTree :=
  FsTree.dir "root"
    [FsTree.dir "project" [FsTree.dir ".git" []],
     FsTree.dir "node_modules" [FsTree.dir ".git" []],
     FsTree.dir "vendor" [FsTree.dir ".git" []]]

/-- A tree whose repository marker is a regular file named `.git`. -/
def treeGitFile : FsTree :=
  FsTree.dir "r" [FsTree.dir "proj" [FsTree.file ".git"]]

/-- The effects of whichever branch the analyse-and-discard phase took. -/
def adEffects (x : Except ProcOut (GitRepo × RepoState × List Effect)) : List Effect :=
  match x with
  | Except.error out => out.effects
  | Except.ok (_, _, effs) => effs

/-- A scan configuration with a discard pattern configured. -/
def cfgScanDiscard : Config :=
  { witCfg with operation := OperationType.scan, discardFiles := ["secret.txt"] }

/-- A scan configuration without discard patterns. -/
def cfgScanOnly : Config :=
  { witCfg with operation := OperationType.scan }

/-- A healthy repository state whose only modification matches the discard
pattern of `cfgScanDiscard`. -/
def stSecretDirty : RepoState :=
  { stOkClean with
    status := [{ file := "secret.txt", worktreeModified := true, stagingModified := false }] }

/-- The default fetch configuration with `dryRun` enabled. -/
def cfgDry : Config :=
  { witCfg with dryRun := true }

/-- The model `tui.NewModel` constructs before its message loop starts. -/
def tuiInit (cfg : Config) : TuiModel :=
  { cfg := cfg, repos := [], processed := 0, results := [], scanning := true,
    processing := false, done := false, phase := "initializing",
    errMsg := none, nextIndex := 0 }

/-! ## Helper lemmas -/

theorem analyzeRepo_path (st : RepoState) (r : GitRepo) :
    (analyzeRepo st r).path = r.path := by
  cases hO : st.openOk <;> cases hH : st.headOk <;> cases hW : st.worktreeOk <;>
    cases hS : st.statusOk <;> cases hC : st.commitOk <;> cases hR : st.remotes <;>
    simp [analyzeRepo, hO, hH, hW, hS, hC, hR]

theorem analyzeRepo_name (st : RepoState) (r : GitRepo) :
    (analyzeRepo st r).name = r.name := by
  cases hO : st.openOk <;> cases hH : st.headOk <;> cases hW : st.worktreeOk <;>
    cases hS : st.statusOk <;> cases hC : st.commitOk <;> cases hR : st.remotes <;>
    simp [analyzeRepo, hO, hH, hW, hS, hC, hR]

theorem processTail_path (cfg : Config) (st : RepoState) (repo : GitRepo)
    (effs : List Effect) :
    (processTail cfg st repo effs).result.path = repo.path := by
  unfold processTail
  (repeat' split) <;> rfl

theorem processTail_name (cfg : Config) (st : RepoState) (repo : GitRepo)
    (effs : List Effect) :
    (processTail cfg st repo effs).result.name = repo.name := by
  unfold processTail
  (repeat' split) <;> rfl

theorem processRepo_path_name (cfg : Config) (st : RepoState) (r0 : GitRepo) :
    (processRepo cfg st r0).result.path = r0.path ∧
    (processRepo cfg st r0).result.name = r0.name := by
  unfold processRepo analyzeAndDiscard
  rcases hD : discardFilesStep cfg st with ⟨oe, st2, effs2⟩
  rcases oe with _ | e <;> split_ifs <;>
    by_cases h1 : (analyzeRepo st r0).error = none <;>
      by_cases h2 : ¬cfg.discardFiles = [] ∧ (analyzeRepo st r0).clean = false <;>
        simp [h1, h2, processTail_path, processTail_name, analyzeRepo_path, analyzeRepo_name]

theorem countResults_eq_countP (rs : List GitRepo) :
    countResults rs =
      (rs.countP resultIsSuccess, rs.countP resultIsFailed, rs.countP resultIsSkipped) := by
  induction rs with
  | nil => simp [countResults]
  | cons r rs ih =>
    simp only [countResults, ih, List.countP_cons]
    cases he : r.error with
    | none => simp [resultIsSuccess, resultIsFailed, resultIsSkipped, he]
    | some e =>
      by_cases hc : stringsContains e "skipped" = true <;>
        simp [resultIsSuccess, resultIsFailed, resultIsSkipped, he, hc]

theorem countResults_sum (rs : List GitRepo) :
    (countResults rs).1 + (countResults rs).2.1 + (countResults rs).2.2 = rs.length := by
  induction rs with
  | nil => simp [countResults]
  | cons r rs ih =>
    simp only [countResults, List.length_cons]
    cases he : r.error with
    | none => simpa [he] using by omega
    | some e =>
      by_cases hc : stringsContains e "skipped" = true <;> simp [he, hc] <;> omega

theorem countResults_perm {rs rs' : List GitRepo} (h : List.Perm rs rs') :
    countResults rs = countResults rs' := by
  rw [countResults_eq_countP, countResults_eq_countP,
    h.countP_eq, h.countP_eq, h.countP_eq]

theorem processReposResults_map_path (cfg : Config) (w : String → RepoState)
    (repos : List GitRepo) :
    (processReposResults cfg w repos).map (fun r => r.path) =
      repos.map (fun r => r.path) := by
  unfold processReposResults
  rw [List.map_map]
  exact List.map_congr_left (fun r _ => (processRepo_path_name cfg (w r.path) r).1)

/-- C1: exactly-once processing and the counter invariant.

For a completed (uncancelled) run over `repos`, the result stream received
by `displayResults` — any completion-order permutation `received` of the
per-descriptor results — has exactly one result per discovered descriptor:
its length is the descriptor count, its paths are a permutation of the
descriptors' paths (distinct whenever the scan produced distinct paths),
and the accumulated counters satisfy
`successful + failed + skipped = total`. -/
theorem C1_exactly_once_and_count_invariant (cfg : Config) (w : String → RepoState)
    (repos received : List GitRepo)
    (hperm : List.Perm received (processReposResults cfg w repos)) :
    received.length = repos.length ∧
    List.Perm (received.map (fun r => r.path)) (repos.map (fun r => r.path)) ∧
    ((repos.map (fun r => r.path)).Nodup → (received.map (fun r => r.path)).Nodup) ∧
    (countResults received).1 + (countResults received).2.1 +
      (countResults received).2.2 = repos.length := by
  have hmap : List.Perm (received.map (fun r => r.path))
      (repos.map (fun r => r.path)) := by
    have := hperm.map (fun r => r.path)
    rwa [processReposResults_map_path] at this
  refine ⟨?_, hmap, ?_, ?_⟩
  · rw [hperm.length_eq]
    simp [processReposResults]
  · intro hnd
    exact hmap.nodup_iff.mpr hnd
  · rw [countResults_perm hperm, countResults_sum]
    simp [processReposResults]

/-- C1 witness: a concrete three-repository run (one success, one skip, one
failure). -/
theorem C1_exactly_once_and_count_invariant_witness :
    ((processReposResults witCfg witWorld witRepos).length = witRepos.length ∧
      List.Perm ((processReposResults witCfg witWorld witRepos).map (fun r => r.path))
        (witRepos.map (fun r => r.path)) ∧
      ((witRepos.map (fun r => r.path)).Nodup →
        ((processReposResults witCfg witWorld witRepos).map (fun r => r.path)).Nodup) ∧
      (countResults (processReposResults witCfg witWorld witRepos)).1 +
        (countResults (processReposResults witCfg witWorld witRepos)).2.1 +
        (countResults (processReposResults witCfg witWorld witRepos)).2.2 =
        witRepos.length) :=
  C1_exactly_once_and_count_invariant witCfg witWorld witRepos
    (processReposResults witCfg witWorld witRepos) (List.Perm.refl _)

/-- C4: the run is reported as failed exactly when some repository's
outcome is Failed; merely-skipped repositories never produce a failed run;
and one repository's result depends only on its own repository's state, so
another repository's failure cannot abort or alter its processing
(failure isolation). -/
theorem C4_run_failure_iff_and_isolation (cfg : Config) :
    (∀ results : List GitRepo,
      displayResultsErr results ≠ none ↔ ∃ r ∈ results, resultIsFailed r = true) ∧
    (∀ results : List GitRepo,
      (∀ r ∈ results, resultIsFailed r = false) → displayResultsErr results = none) ∧
    (∀ (w w' : String → RepoState) (repos : List GitRepo) (i : Nat) (r : GitRepo),
      repos[i]? = some r → w r.path = w' r.path →
      (processReposResults cfg w repos)[i]? = (processReposResults cfg w' repos)[i]?) := by
  have key : ∀ results : List GitRepo,
      displayResultsErr results ≠ none ↔ ∃ r ∈ results, resultIsFailed r = true := by
    intro results
    unfold displayResultsErr
    rw [countResults_eq_countP]
    by_cases h : 0 < results.countP resultIsFailed
    · simp only [h, if_pos]
      constructor
      · intro _
        exact List.countP_pos_iff.mp h
      · intro _ h2
        simp at h2
    · simp only [h, if_neg, if_false]
      constructor
      · intro h2
        exact absurd rfl h2
      · intro hex
        exact absurd (List.countP_pos_iff.mpr hex) h
  refine ⟨key, ?_, ?_⟩
  · intro results hall
    by_contra hne
    obtain ⟨r, hr, hf⟩ := (key results).mp hne
    rw [hall r hr] at hf
    exact Bool.false_ne_true hf
  · intro w w' repos i r hget hagree
    unfold processReposResults
    rw [List.getElem?_map, List.getElem?_map, hget]
    simp [hagree]

/-- C4 witness: over the concrete three-repository world (one of them
failing), the run error is present exactly because a Failed result exists,
a skip-only world yields no run error, and changing the other repositories'
states leaves a repository's result slot unchanged. -/
theorem C4_run_failure_iff_and_isolation_witness :
    (displayResultsErr (processReposResults witCfg witWorld witRepos) ≠ none ↔
      ∃ r ∈ processReposResults witCfg witWorld witRepos, resultIsFailed r = true) ∧
    (processReposResults witCfg witWorld witRepos)[0]? =
      (processReposResults witCfg witWorldAlt witRepos)[0]? :=
  ⟨(C4_run_failure_iff_and_isolation witCfg).1 _,
   (C4_run_failure_iff_and_isolation witCfg).2.2 witWorld witWorldAlt witRepos 0
     (foundRepo "/w/a") (by decide) (by decide)⟩

/-- C10: with `PlainMode=false` and `Verbose=false`, `Execute` runs the TUI
and returns nil whenever the TUI program itself ran without error — for
every world and scan outcome, hence regardless of how many repositories
failed; and any non-nil return of `Execute` is the plain-mode path's
result, so failed-run error reporting happens only on that path. -/
theorem C10_tui_mode_returns_nil :
    (∀ (cfg : Config) (w : String → RepoState)
        (scanOutcome : Except String (List GitRepo)) (tuiRunOk : Bool),
      cfg.plainMode = false → cfg.verbose = false → tuiRunOk = true →
      execute cfg w scanOutcome tuiRunOk = none) ∧
    (∀ (cfg : Config) (w : String → RepoState)
        (scanOutcome : Except String (List GitRepo)) (tuiRunOk : Bool),
      execute cfg w scanOutcome tuiRunOk ≠ none →
      execute cfg w scanOutcome tuiRunOk = executeInPlainMode cfg w scanOutcome) := by
  constructor
  · intro cfg w scanOutcome tuiRunOk hp hv ht
    simp [execute, hp, hv, ht]
  · intro cfg w scanOutcome tuiRunOk hne
    unfold execute at hne ⊢
    split_ifs at hne ⊢ with h1 h2
    · exact absurd rfl hne
    · rfl
    · rfl

/-- C10 witness: with the TUI front-end active and every repository
failing, `Execute` still returns nil when the TUI program ran without
error. -/
theorem C10_tui_mode_returns_nil_witness :
    execute witCfgTui witWorldBroken (Except.ok witRepos) true = none :=
  C10_tui_mode_returns_nil.1 witCfgTui witWorldBroken (Except.ok witRepos) true
    (by decide) (by decide) rfl

/-- C7: a directory whose path contains a configured exclusion token
contributes nothing from its entire subtree (the walk skips it without
descending); and the spec's example — `project/.git`, `node_modules/.git`,
`vendor/.git` with exclusions `{node_modules, vendor}` — yields exactly one
descriptor, named `project`. -/
theorem C7_exclusion_correctness :
    (∀ (cfg : Config) (path name : String) (children : List FsTree),
      isExcluded cfg path = true →
      walkVisit cfg path (FsTree.dir name children) = []) ∧
    findRepos witCfgExcl "root" tree7 = [foundRepo "root/project"] ∧
    (foundRepo "root/project").name = "project" := by
  refine ⟨?_, by decide, by decide⟩
  intro cfg path name children h
  simp [walkVisit, h]

/-- C7 witness: the general subtree-exclusion conjunct applied to the
example's `node_modules` directory. -/
theorem C7_exclusion_correctness_witness :
    walkVisit witCfgExcl "root/node_modules"
      (FsTree.dir "node_modules" [FsTree.dir ".git" []]) = [] :=
  C7_exclusion_correctness.1 witCfgExcl "root/node_modules" "node_modules"
    [FsTree.dir ".git" []] (by decide)

/-- C9: a non-excluded directory that directly contains an entry named
`.git` is recorded as a repository descriptor; the hypothesis places no
requirement on the entry being a directory, and the concrete conjunct runs
the scan over a tree whose `.git` marker is a regular file. -/
theorem C9_git_marker_is_existence_check :
    (∀ (cfg : Config) (path name : String) (children : List FsTree),
      isExcluded cfg path = false → hasGitMarker children = true →
      foundRepo path ∈ walkVisit cfg path (FsTree.dir name children)) ∧
    findRepos witCfg "r" treeGitFile = [foundRepo "r/proj"] := by
  refine ⟨?_, by decide⟩
  intro cfg path name children hexcl hmarker
  simp only [walkVisit, hexcl, hmarker, Bool.false_eq_true, if_false, if_true,
    Bool.true_and]
  split_ifs <;> simp

/-- C9 witness: the membership conjunct applied to a directory whose `.git`
entry is a regular file. -/
theorem C9_git_marker_is_existence_check_witness :
    foundRepo "r/proj" ∈ walkVisit witCfg "r/proj"
      (FsTree.dir "proj" [FsTree.file ".git"]) :=
  C9_git_marker_is_existence_check.1 witCfg "r/proj" "proj" [FsTree.file ".git"]
    (by decide) (by decide)

theorem runDiscards_effects_discard (st : RepoState) (fs : List String) :
    ∀ e ∈ (runDiscards st fs).2.2, ∃ f, e = Effect.discardFile f := by
  induction fs generalizing st with
  | nil => intro e he; simp [runDiscards] at he
  | cons f fs ih =>
    intro e he
    unfold runDiscards at he
    split at he
    · simp at he
    · replace he : e ∈ Effect.discardFile f ::
          (runDiscards (applyDiscard st f) fs).2.2 := he
      rcases List.mem_cons.mp he with rfl | hmem
      · exact ⟨f, rfl⟩
      · exact ih (applyDiscard st f) e hmem

theorem discardFilesStep_effects_discard (cfg : Config) (st : RepoState) :
    ∀ e ∈ (discardFilesStep cfg st).2.2, ∃ f, e = Effect.discardFile f := by
  unfold discardFilesStep
  split_ifs with h1 h2
  · intro e he; simp at he
  · intro e he; simp at he
  · exact runDiscards_effects_discard st _

theorem processTail_scan_effects (cfg : Config) (st : RepoState) (repo : GitRepo)
    (effs : List Effect) (hop : cfg.operation = OperationType.scan) :
    (processTail cfg st repo effs).effects = effs := by
  unfold processTail
  rw [hop]
  split_ifs <;> rfl

theorem analyzeAndDiscard_effects_discard (cfg : Config) (st : RepoState)
    (r0 : GitRepo) :
    ∀ e ∈ adEffects (analyzeAndDiscard cfg st r0), ∃ f, e = Effect.discardFile f := by
  have hD := discardFilesStep_effects_discard cfg st
  unfold analyzeAndDiscard
  rcases hDe : discardFilesStep cfg st with ⟨oe, st2, effs2⟩
  rw [hDe] at hD
  rcases oe with _ | err <;> split_ifs <;>
    by_cases h1 : (analyzeRepo st r0).error = none <;>
      by_cases h2 : ¬cfg.discardFiles = [] ∧ (analyzeRepo st r0).clean = false <;>
        (intro e he) <;>
          first
          | (exact hD e (by simpa [adEffects, h1, h2] using he))
          | simp [adEffects, h1, h2] at he

theorem processRepo_scan_effects_discard (cfg : Config) (st : RepoState)
    (r0 : GitRepo) (hop : cfg.operation = OperationType.scan) :
    ∀ e ∈ (processRepo cfg st r0).effects, ∃ f, e = Effect.discardFile f := by
  have h := analyzeAndDiscard_effects_discard cfg st r0
  unfold processRepo
  cases hAD : analyzeAndDiscard cfg st r0 with
  | error out =>
    rw [hAD] at h
    simpa [adEffects] using h
  | ok trip =>
    obtain ⟨repo, st', effs⟩ := trip
    rw [hAD] at h
    simp only [adEffects] at h
    rw [processTail_scan_effects cfg st' repo effs hop]
    exact h

/-- C5 counterexample: with a discard pattern configured, processing a
dirty repository with `operation=scan` performs a working-tree discard —
the scan mutates the repository, contradicting the claim that scan never
mutates and in particular never discards working-tree changes.  (The
conditional-discard step of `ProcessRepo` does not exempt scan.) -/
theorem C5_scan_mutates_counterexample :
    cfgScanDiscard.operation = OperationType.scan ∧
    (processRepo cfgScanDiscard stSecretDirty (foundRepo "/w/s")).effects =
      [Effect.discardFile "secret.txt"] ∧
    (processRepo cfgScanDiscard stSecretDirty (foundRepo "/w/s")).state ≠
      stSecretDirty :=
  ⟨rfl, by decide, by decide⟩

/-- C5 amended: processing with `operation=scan` performs no network
operation (no fetch and no pull effect) and the analysis is itself the
result; however the conditional discard step runs for scan as for any other
operation, so scan is mutation-free only when no discard patterns are
configured. -/
theorem C5_scan_no_network_amended (cfg : Config) (st : RepoState) (r0 : GitRepo)
    (hop : cfg.operation = OperationType.scan) :
    Effect.fetchRemote ∉ (processRepo cfg st r0).effects ∧
    Effect.pullRemote ∉ (processRepo cfg st r0).effects ∧
    (cfg.discardFiles = [] → (processRepo cfg st r0).effects = []) := by
  have h := processRepo_scan_effects_discard cfg st r0 hop
  refine ⟨?_, ?_, ?_⟩
  · intro hmem
    obtain ⟨f, hf⟩ := h _ hmem
    exact Effect.noConfusion hf
  · intro hmem
    obtain ⟨f, hf⟩ := h _ hmem
    exact Effect.noConfusion hf
  · intro hde
    unfold processRepo analyzeAndDiscard
    simp only [hde]
    by_cases h1 : (analyzeRepo st r0).error = none <;>
      simp [h1, processTail_scan_effects cfg st (analyzeRepo st r0) [] hop]

/-- C5 amended witness: a concrete scan run performs neither fetch nor
pull, and with no discard patterns configured it performs no effect at
all. -/
theorem C5_scan_no_network_amended_witness :
    Effect.fetchRemote ∉
      (processRepo cfgScanDiscard stSecretDirty (foundRepo "/w/s")).effects ∧
    (processRepo cfgScanOnly stSecretDirty (foundRepo "/w/s")).effects = [] :=
  ⟨(C5_scan_no_network_amended cfgScanDiscard stSecretDirty (foundRepo "/w/s") rfl).1,
   (C5_scan_no_network_amended cfgScanOnly stSecretDirty (foundRepo "/w/s") rfl).2.2 rfl⟩

theorem analyzeRepo_spec (st : RepoState) (r : GitRepo)
    (hopen : st.openOk = true) (hhead : st.headOk = true)
    (hwt : st.worktreeOk = true) (hst : st.statusOk = true) :
    (analyzeRepo st r).error = r.error ∧
    (analyzeRepo st r).clean = statusIsClean st.status ∧
    (analyzeRepo st r).modifiedFiles = modifiedNames st.status := by
  cases hC : st.commitOk <;> cases hR : st.remotes <;>
    simp [analyzeRepo, hopen, hhead, hwt, hst, hC, hR]

theorem runDiscards_flags (st : RepoState) (fs : List String) :
    (runDiscards st fs).2.1.openOk = st.openOk ∧
    (runDiscards st fs).2.1.headOk = st.headOk ∧
    (runDiscards st fs).2.1.worktreeOk = st.worktreeOk ∧
    (runDiscards st fs).2.1.statusOk = st.statusOk := by
  induction fs generalizing st with
  | nil => exact ⟨rfl, rfl, rfl, rfl⟩
  | cons f fs ih =>
    unfold runDiscards
    split
    · exact ⟨rfl, rfl, rfl, rfl⟩
    · simpa [applyDiscard] using ih (applyDiscard st f)

theorem discardFilesStep_flags (cfg : Config) (st : RepoState) :
    (discardFilesStep cfg st).2.1.openOk = st.openOk ∧
    (discardFilesStep cfg st).2.1.headOk = st.headOk ∧
    (discardFilesStep cfg st).2.1.worktreeOk = st.worktreeOk ∧
    (discardFilesStep cfg st).2.1.statusOk = st.statusOk := by
  unfold discardFilesStep
  split_ifs
  · exact ⟨rfl, rfl, rfl, rfl⟩
  · exact ⟨rfl, rfl, rfl, rfl⟩
  · exact runDiscards_flags st _

theorem analyzeAndDiscard_eq (cfg : Config) (st : RepoState) (r0 : GitRepo)
    (h0 : r0.error = none)
    (hopen : st.openOk = true) (hhead : st.headOk = true)
    (hwt : st.worktreeOk = true) (hst : st.statusOk = true) :
    analyzeAndDiscard cfg st r0 =
      if (!cfg.discardFiles.isEmpty && !statusIsClean st.status) = true then
        match discardFilesStep cfg st with
        | (some e, st2, effs2) =>
          Except.error ⟨{ analyzeRepo st r0 with
            error := some ("failed to discard files: " ++ e) }, st2, effs2⟩
        | (none, st2, effs2) =>
          Except.ok (analyzeRepo st2 (analyzeRepo st r0), st2, effs2)
      else Except.ok (analyzeRepo st r0, st, []) := by
  have hA := analyzeRepo_spec st r0 hopen hhead hwt hst
  by_cases hd : (!cfg.discardFiles.isEmpty && !statusIsClean st.status) = true
  · rw [if_pos hd]
    unfold analyzeAndDiscard
    rw [if_neg (by simp [hA.1, h0])]
    rw [if_pos (by rw [hA.2.1]; exact hd)]
    rw [if_neg (by simp [hopen])]
  · rw [if_neg hd]
    unfold analyzeAndDiscard
    rw [if_neg (by simp [hA.1, h0])]
    rw [if_neg (by rw [hA.2.1]; exact hd)]

theorem analyzeAndDiscard_ok_spec (cfg : Config) (st : RepoState) (r0 : GitRepo)
    (h0 : r0.error = none)
    (hopen : st.openOk = true) (hhead : st.headOk = true)
    (hwt : st.worktreeOk = true) (hst : st.statusOk = true)
    (repo : GitRepo) (st' : RepoState) (effs : List Effect)
    (h : analyzeAndDiscard cfg st r0 = Except.ok (repo, st', effs)) :
    repo.error = none ∧
    st'.openOk = true ∧ st'.headOk = true ∧ st'.worktreeOk = true ∧
    st'.statusOk = true ∧
    repo.clean = statusIsClean st'.status ∧
    repo.modifiedFiles = modifiedNames st'.status := by
  have hA := analyzeRepo_spec st r0 hopen hhead hwt hst
  have hFl := discardFilesStep_flags cfg st
  rw [analyzeAndDiscard_eq cfg st r0 h0 hopen hhead hwt hst] at h
  rcases hDe : discardFilesStep cfg st with ⟨oe, st2, effs2⟩
  rw [hDe] at h hFl
  by_cases hd : (!cfg.discardFiles.isEmpty && !statusIsClean st.status) = true
  · rw [if_pos hd] at h
    rcases oe with _ | err
    · simp only [Except.ok.injEq, Prod.mk.injEq] at h
      obtain ⟨hr, hs, hf⟩ := h
      rw [← hr, ← hs]
      have ho2 : st2.openOk = true := by
        simpa [hopen] using hFl.1
      have hh2 : st2.headOk = true := by
        simpa [hhead] using hFl.2.1
      have hw2 : st2.worktreeOk = true := by
        simpa [hwt] using hFl.2.2.1
      have hs2 : st2.statusOk = true := by
        simpa [hst] using hFl.2.2.2
      have hA2 := analyzeRepo_spec st2 (analyzeRepo st r0) ho2 hh2 hw2 hs2
      exact ⟨by rw [hA2.1, hA.1, h0], ho2, hh2, hw2, hs2, hA2.2.1, hA2.2.2⟩
    · exact absurd h (by simp)
  · rw [if_neg hd] at h
    simp only [Except.ok.injEq, Prod.mk.injEq] at h
    obtain ⟨hr, hs, hf⟩ := h
    rw [← hr, ← hs]
    exact ⟨by rw [hA.1, h0], hopen, hhead, hwt, hst, hA.2.1, hA.2.2⟩

theorem analyzeAndDiscard_clean (cfg : Config) (st : RepoState) (r0 : GitRepo)
    (h0 : r0.error = none)
    (hopen : st.openOk = true) (hhead : st.headOk = true)
    (hwt : st.worktreeOk = true) (hst : st.statusOk = true)
    (hclean : statusIsClean st.status = true) :
    analyzeAndDiscard cfg st r0 = Except.ok (analyzeRepo st r0, st, []) := by
  have hA := analyzeRepo_spec st r0 hopen hhead hwt hst
  unfold analyzeAndDiscard
  rw [if_neg (by rw [hA.1, h0]; simp)]
  rw [if_neg (by rw [hA.2.1, hclean]; simp)]

theorem processTail_dryRun (cfg : Config) (st : RepoState) (repo : GitRepo)
    (effs : List Effect) (hdry : cfg.dryRun = true)
    (hgate : (cfg.skipDirty && !repo.clean &&
      decide (cfg.operation ≠ OperationType.scan)) = false) :
    processTail cfg st repo effs = ⟨repo, st, effs⟩ := by
  unfold processTail
  rw [hgate]
  simp [hdry]

theorem processTail_scan_result (cfg : Config) (st : RepoState) (repo : GitRepo)
    (effs : List Effect) (hop : cfg.operation = OperationType.scan)
    (hopen : st.openOk = true) :
    (processTail cfg st repo effs).result = repo := by
  unfold processTail
  rw [hop]
  split_ifs <;> simp_all

theorem modifiedNames_ne_nil (s : List FileEntry)
    (h : statusIsClean s = false) : modifiedNames s ≠ [] := by
  induction s with
  | nil => simp [statusIsClean] at h
  | cons e es ih =>
    by_cases hm : e.isModified = true
    · simp [modifiedNames, hm]
    · have hm' : e.isModified = false := by
        cases hq : e.isModified
        · rfl
        · exact absurd hq hm
      have hes : statusIsClean es = false := by
        simpa [statusIsClean, hm'] using h
      simpa [modifiedNames, hm'] using ih hes

/-- C3: when `skipDirty` is set and the tree is still dirty after the
analyse-and-discard phase, a fetch or pull run is skipped with the
uncommitted-changes reason (the message carries the source's `(skipped)`
classification marker and contains the claimed reason text), while a scan
run of the same repository is not skipped: it succeeds, returning the
analysis itself as the result, with its (non-empty) modified-file list. -/
theorem C3_dirty_gate (cfg : Config) (st : RepoState) (r0 repo : GitRepo)
    (st' : RepoState) (effs : List Effect)
    (h0 : r0.error = none)
    (hopen : st.openOk = true) (hhead : st.headOk = true)
    (hwt : st.worktreeOk = true) (hst : st.statusOk = true)
    (hsd : cfg.skipDirty = true)
    (hAD : analyzeAndDiscard cfg st r0 = Except.ok (repo, st', effs))
    (hdirty : repo.clean = false) :
    (cfg.operation = OperationType.fetch ∨ cfg.operation = OperationType.pull →
      (processRepo cfg st r0).result.error =
        some "repository has uncommitted changes (skipped)" ∧
      resultIsSkipped (processRepo cfg st r0).result = true ∧
      resultIsFailed (processRepo cfg st r0).result = false ∧
      stringsContains "repository has uncommitted changes (skipped)"
        "repository has uncommitted changes" = true) ∧
    (cfg.operation = OperationType.scan →
      (processRepo cfg st r0).result = repo ∧
      repo.error = none ∧
      resultIsSkipped (processRepo cfg st r0).result = false ∧
      repo.modifiedFiles ≠ []) := by
  have hspec := analyzeAndDiscard_ok_spec cfg st r0 h0 hopen hhead hwt hst
    repo st' effs hAD
  have hPR : processRepo cfg st r0 = processTail cfg st' repo effs := by
    unfold processRepo
    rw [hAD]
  constructor
  · intro hop
    have hgateb : (cfg.skipDirty && !repo.clean &&
        decide (cfg.operation ≠ OperationType.scan)) = true := by
      rcases hop with h | h <;> simp [hsd, hdirty, h]
    have hTail : processTail cfg st' repo effs =
        ⟨{ repo with error := some "repository has uncommitted changes (skipped)" },
         st', effs⟩ := by
      unfold processTail
      rw [hgateb]
      simp
    rw [hPR, hTail]
    exact ⟨rfl, rfl, rfl, rfl⟩
  · intro hop
    have hres : (processTail cfg st' repo effs).result = repo :=
      processTail_scan_result cfg st' repo effs hop hspec.2.1
    refine ⟨by rw [hPR, hres], hspec.1, ?_, ?_⟩
    · rw [hPR, hres]
      simp [resultIsSkipped, hspec.1]
    · rw [hspec.2.2.2.2.2.2]
      apply modifiedNames_ne_nil
      rw [← hspec.2.2.2.2.2.1]
      exact hdirty

/-- C3 witness: the concrete dirty repository under `skipDirty=true` is
skipped with the uncommitted-changes reason when fetched, while the same
repository under `operation=scan` succeeds and reports its modified
file. -/
theorem C3_dirty_gate_witness :
    (processRepo witCfg stDirty (foundRepo "/w/b")).result.error =
      some "repository has uncommitted changes (skipped)" ∧
    resultIsSkipped (processRepo witCfg stDirty (foundRepo "/w/b")).result = true ∧
    (processRepo cfgScanOnly stDirty (foundRepo "/w/b")).result.error = none ∧
    (processRepo cfgScanOnly stDirty (foundRepo "/w/b")).result.modifiedFiles ≠ [] := by
  have h1 := C3_dirty_gate witCfg stDirty (foundRepo "/w/b")
    (analyzeRepo stDirty (foundRepo "/w/b")) stDirty [] rfl rfl rfl rfl rfl rfl
    rfl (by decide)
  have h2 := C3_dirty_gate cfgScanOnly stDirty (foundRepo "/w/b")
    (analyzeRepo stDirty (foundRepo "/w/b")) stDirty [] rfl rfl rfl rfl rfl rfl
    rfl (by decide)
  obtain ⟨ha, hb, -, -⟩ := h1.1 (Or.inl rfl)
  obtain ⟨hres, herr, -, hmod⟩ := h2.2 rfl
  refine ⟨ha, hb, ?_, ?_⟩
  · rw [hres]
    exact herr
  · rw [hres]
    exact hmod

/-- C6: with `dryRun=true`, a repository whose inspection succeeds and that
is not stopped by the dirty gate yields `Success` without any fetch or pull
effect; and on a clean (unmodified) repository the dry run leaves the
repository state untouched and performs no effect, so repeating it
reproduces the identical successful result. -/
theorem C6_dry_run_success_and_idempotent (cfg : Config) (st : RepoState)
    (r0 repo : GitRepo) (st' : RepoState) (effs : List Effect)
    (hdry : cfg.dryRun = true)
    (h0 : r0.error = none)
    (hopen : st.openOk = true) (hhead : st.headOk = true)
    (hwt : st.worktreeOk = true) (hst : st.statusOk = true)
    (hAD : analyzeAndDiscard cfg st r0 = Except.ok (repo, st', effs))
    (hgate : cfg.skipDirty = false ∨ repo.clean = true ∨
      cfg.operation = OperationType.scan) :
    (processRepo cfg st r0).result.error = none ∧
    Effect.fetchRemote ∉ (processRepo cfg st r0).effects ∧
    Effect.pullRemote ∉ (processRepo cfg st r0).effects ∧
    (statusIsClean st.status = true →
      (processRepo cfg st r0).state = st ∧
      (processRepo cfg st r0).effects = [] ∧
      processRepo cfg (processRepo cfg st r0).state r0 = processRepo cfg st r0) := by
  have hspec := analyzeAndDiscard_ok_spec cfg st r0 h0 hopen hhead hwt hst
    repo st' effs hAD
  have hgateb : (cfg.skipDirty && !repo.clean &&
      decide (cfg.operation ≠ OperationType.scan)) = false := by
    rcases hgate with h | h | h <;> simp [h]
  have hPR : processRepo cfg st r0 = ⟨repo, st', effs⟩ := by
    unfold processRepo
    rw [hAD]
    exact processTail_dryRun cfg st' repo effs hdry hgateb
  have hEff := analyzeAndDiscard_effects_discard cfg st r0
  rw [hAD] at hEff
  refine ⟨by rw [hPR]; exact hspec.1, ?_, ?_, ?_⟩
  · rw [hPR]
    intro hmem
    obtain ⟨f, hf⟩ := hEff Effect.fetchRemote (by simpa [adEffects] using hmem)
    exact Effect.noConfusion hf
  · rw [hPR]
    intro hmem
    obtain ⟨f, hf⟩ := hEff Effect.pullRemote (by simpa [adEffects] using hmem)
    exact Effect.noConfusion hf
  · intro hclean
    have hADc : analyzeAndDiscard cfg st r0 =
        Except.ok (analyzeRepo st r0, st, []) :=
      analyzeAndDiscard_clean cfg st r0 h0 hopen hhead hwt hst hclean
    rw [hAD] at hADc
    simp only [Except.ok.injEq, Prod.mk.injEq] at hADc
    obtain ⟨hr, hs, hf⟩ := hADc
    refine ⟨by rw [hPR]; exact hs, by rw [hPR]; exact hf, ?_⟩
    rw [hPR]
    show processRepo cfg st' r0 = _
    rw [hs] at hPR ⊢
    exact hPR

/-- C6 witness: a concrete dry run on a clean repository succeeds, leaves
the state unchanged with no effects, and re-running it on the resulting
state reproduces the identical result. -/
theorem C6_dry_run_success_and_idempotent_witness :
    (processRepo cfgDry stOkClean (foundRepo "/w/a")).result.error = none ∧
    (processRepo cfgDry stOkClean (foundRepo "/w/a")).state = stOkClean ∧
    (processRepo cfgDry stOkClean (foundRepo "/w/a")).effects = [] ∧
    processRepo cfgDry (processRepo cfgDry stOkClean (foundRepo "/w/a")).state
      (foundRepo "/w/a") = processRepo cfgDry stOkClean (foundRepo "/w/a") := by
  have h := C6_dry_run_success_and_idempotent cfgDry stOkClean (foundRepo "/w/a")
    (analyzeRepo stOkClean (foundRepo "/w/a")) stOkClean [] rfl rfl rfl rfl rfl rfl
    rfl (Or.inr (Or.inl (by decide)))
  obtain ⟨he, -, -, hc⟩ := h
  obtain ⟨hs, hf, hi⟩ := hc rfl
  exact ⟨he, hs, hf, hi⟩

theorem runPool_active_le (limit : Nat) (evs : List PoolEvent) :
    ∀ s0 s : PoolState, s0.active ≤ limit →
      runPool limit s0 evs = some s → s.active ≤ limit := by
  induction evs with
  | nil =>
    intro s0 s h0 h
    simp only [runPool, Option.some.injEq] at h
    rw [← h]
    exact h0
  | cons e evs ih =>
    intro s0 s h0 h
    unfold runPool at h
    cases e with
    | start =>
      unfold poolStep at h
      by_cases hcond : 0 < s0.queued ∧ s0.active < limit
      · rw [if_pos hcond] at h
        exact ih _ s (show s0.active + 1 ≤ limit by omega) h
      · rw [if_neg hcond] at h
        cases h
    | finish =>
      unfold poolStep at h
      by_cases hcond : 0 < s0.active
      · rw [if_pos hcond] at h
        exact ih _ s (show s0.active - 1 ≤ limit by omega) h
      · rw [if_neg hcond] at h
        cases h
    | cancel =>
      unfold poolStep at h
      exact ih { s0 with cancelled := true } s h0 h

theorem workerCount_pos (cfg : Config) : 1 ≤ workerCount cfg := by
  unfold workerCount
  split_ifs with h
  · exact Nat.le_refl 1
  · omega

theorem workerCount_eq_workers (cfg : Config) (h : 1 ≤ cfg.workers) :
    (workerCount cfg : Int) = cfg.workers := by
  unfold workerCount
  split_ifs with h2
  · omega
  · omega

theorem processReposLoop_spec (k : Nat) :
    ∀ m : TuiModel, m.nextIndex ≤ m.repos.length →
      (processReposLoop k m).1.repos = m.repos ∧
      (processReposLoop k m).1.processed = m.processed ∧
      (processReposLoop k m).1.cfg = m.cfg ∧
      (processReposLoop k m).1.nextIndex = min (m.nextIndex + k) m.repos.length ∧
      (processReposLoop k m).2.countP TuiCmd.isDispatch =
        min (m.nextIndex + k) m.repos.length - m.nextIndex := by
  induction k with
  | zero =>
    intro m hle
    refine ⟨rfl, rfl, rfl, ?_, ?_⟩
    · simp only [processReposLoop]
      omega
    · simp only [processReposLoop, List.countP_nil]
      omega
  | succ k ih =>
    intro m hle
    unfold processReposLoop
    by_cases hlt : m.nextIndex < m.repos.length
    · rw [if_pos hlt]
      have hn : processNextRepo m =
          ({ m with nextIndex := m.nextIndex + 1 }, [TuiCmd.dispatch m.nextIndex]) := by
        unfold processNextRepo
        rw [if_pos hlt]
      rw [hn]
      obtain ⟨h1, h2, h3, h4, h5⟩ :=
        ih { m with nextIndex := m.nextIndex + 1 } (by simpa using hlt)
      simp only [] at h1 h2 h3 h4 h5 ⊢
      refine ⟨by simpa using h1, by simpa using h2, by simpa using h3, ?_, ?_⟩
      · rw [h4]
        omega
      · simp [List.countP_append, List.countP_cons, TuiCmd.isDispatch, h5]
        omega
    · rw [if_neg hlt]
      refine ⟨rfl, rfl, rfl, ?_, ?_⟩
      · show m.nextIndex = min (m.nextIndex + (k + 1)) m.repos.length
        omega
      · show List.countP TuiCmd.isDispatch [] =
          min (m.nextIndex + (k + 1)) m.repos.length - m.nextIndex
        simp only [List.countP_nil]
        omega

theorem processRepos_spec (m : TuiModel) (hp0 : m.nextIndex = 0)
    (hne : m.repos ≠ []) :
    (processRepos m).1.repos = m.repos ∧
    (processRepos m).1.processed = m.processed ∧
    (processRepos m).1.cfg = m.cfg ∧
    (processRepos m).1.nextIndex = min (workerCount m.cfg) m.repos.length ∧
    (processRepos m).2.countP TuiCmd.isDispatch =
      min (workerCount m.cfg) m.repos.length := by
  obtain ⟨h1, h2, h3, h4, h5⟩ :=
    processReposLoop_spec (workerCount m.cfg) m (by rw [hp0]; exact Nat.zero_le _)
  have hcount : (processReposLoop (workerCount m.cfg) m).2.countP TuiCmd.isDispatch =
      min (workerCount m.cfg) m.repos.length := by
    rw [h5, hp0]
    omega
  have hlen : m.repos.length ≠ 0 := by
    simpa [List.length_eq_zero] using hne
  have hwc := workerCount_pos m.cfg
  have hne2 : (processReposLoop (workerCount m.cfg) m).2.isEmpty = false := by
    rcases hE : (processReposLoop (workerCount m.cfg) m).2 with _ | ⟨c, cs⟩
    · rw [hE] at hcount
      simp only [List.countP_nil] at hcount
      omega
    · simp
  unfold processRepos
  dsimp only
  rw [hne2]
  simp only [Bool.false_eq_true, if_false]
  refine ⟨h1, h2, h3, ?_, hcount⟩
  rw [h4, hp0]
  omega

theorem tui_entry_spec (m : TuiModel) (rs : List GitRepo)
    (hp : m.processed = 0) (hne : rs ≠ []) :
    TuiInv (update m (TuiMsg.reposFound rs)).1 ∧
    (update m (TuiMsg.reposFound rs)).1.processed = 0 ∧
    (update m (TuiMsg.reposFound rs)).1.repos = rs ∧
    (update m (TuiMsg.reposFound rs)).2.countP TuiCmd.isDispatch =
      min (workerCount m.cfg) rs.length := by
  have hlen : ¬ rs.length = 0 := by
    simpa [List.length_eq_zero] using hne
  have hspec := processRepos_spec
    { m with repos := rs, scanning := false, processing := true,
             phase := "processing", nextIndex := 0 } rfl (by simpa using hne)
  obtain ⟨h1, h2, h3, h4, h5⟩ := hspec
  unfold update
  dsimp only
  rw [if_neg hlen]
  refine ⟨?_, by rw [h2]; exact hp, h1, by rw [h5]⟩
  unfold TuiInv
  rw [h4, h2, h3, h1, hp]
  omega

theorem tui_step_spec (m : TuiModel) (r : GitRepo) (hInv : TuiInv m) :
    TuiInv (update m (TuiMsg.repoProcessed r)).1 ∧
    (update m (TuiMsg.repoProcessed r)).1.processed = m.processed + 1 ∧
    (update m (TuiMsg.repoProcessed r)).1.results = m.results ++ [r] ∧
    (update m (TuiMsg.repoProcessed r)).2.countP TuiCmd.isDispatch =
      (if m.repos.length ≤ m.processed + 1 then 0
       else if m.nextIndex < m.repos.length then 1 else 0) := by
  have hwc := workerCount_pos m.cfg
  unfold TuiInv at hInv
  unfold update
  dsimp only
  by_cases hdone : m.repos.length ≤ m.processed + 1
  · rw [if_pos hdone, if_pos hdone]
    refine ⟨?_, rfl, rfl, ?_⟩
    · unfold TuiInv
      dsimp only
      omega
    · simp [TuiCmd.isDispatch]
  · rw [if_neg hdone, if_neg hdone]
    by_cases hnext : m.nextIndex < m.repos.length
    · rw [if_pos hnext, if_pos hnext]
      unfold processNextRepo
      dsimp only
      rw [if_pos hnext]
      refine ⟨?_, rfl, rfl, ?_⟩
      · unfold TuiInv
        dsimp only
        omega
      · simp [TuiCmd.isDispatch]
    · rw [if_neg hnext, if_neg hnext]
      refine ⟨?_, rfl, rfl, ?_⟩
      · unfold TuiInv
        dsimp only
        omega
      · simp

/-- C2: bounded concurrency in both execution paths.  In the worker-pool
orchestrator (errgroup with `SetLimit`), every reachable state has at most
`limit` tasks in flight, where `limit` is `Workers` (for a validated
configuration, `workerCount` is exactly `Workers`).  In the incremental
dispatch state machine, the window invariant holds: entry to `Processing`
issues exactly `min(concurrencyLimit, descriptor count)` dispatch commands,
every completion event preserves the invariant and issues exactly one more
dispatch while undispatched descriptors remain (none otherwise), and under
the invariant the in-flight count `nextIndex - processed` never exceeds the
worker count. -/
theorem C2_bounded_concurrency (limit : Nat) :
    (∀ (n : Nat) (evs : List PoolEvent) (s : PoolState),
      runPool limit (poolInit n) evs = some s → s.active ≤ limit) ∧
    (∀ cfg : Config, 1 ≤ cfg.workers → (workerCount cfg : Int) = cfg.workers) ∧
    (∀ m : TuiModel, TuiInv m → m.nextIndex - m.processed ≤ workerCount m.cfg) ∧
    (∀ (m : TuiModel) (rs : List GitRepo), m.processed = 0 → rs ≠ [] →
      TuiInv (update m (TuiMsg.reposFound rs)).1 ∧
      (update m (TuiMsg.reposFound rs)).2.countP TuiCmd.isDispatch =
        min (workerCount m.cfg) rs.length) ∧
    (∀ (m : TuiModel) (r : GitRepo), TuiInv m →
      TuiInv (update m (TuiMsg.repoProcessed r)).1 ∧
      (update m (TuiMsg.repoProcessed r)).2.countP TuiCmd.isDispatch =
        (if m.repos.length ≤ m.processed + 1 then 0
         else if m.nextIndex < m.repos.length then 1 else 0)) := by
  refine ⟨?_, fun cfg h => workerCount_eq_workers cfg h, ?_, ?_, ?_⟩
  · intro n evs s h
    exact runPool_active_le limit evs (poolInit n) s (by simp [poolInit]) h
  · intro m h
    unfold TuiInv at h
    omega
  · intro m rs hp hne
    obtain ⟨a, b, c, d⟩ := tui_entry_spec m rs hp hne
    exact ⟨a, d⟩
  · intro m r h
    obtain ⟨a, b, c, d⟩ := tui_step_spec m r h
    exact ⟨a, d⟩

/-- C2 witness: a concrete pool state reached with limit 2 stays within
the bound, and the concrete three-repository entry to `Processing`
establishes the window invariant with `min(workers, 3)` dispatches. -/
theorem C2_bounded_concurrency_witness :
    PoolState.active ⟨8, 2, 0, false⟩ ≤ 2 ∧
    TuiInv (update (tuiInit witCfg) (TuiMsg.reposFound witRepos)).1 ∧
    (update (tuiInit witCfg) (TuiMsg.reposFound witRepos)).2.countP
      TuiCmd.isDispatch = min (workerCount witCfg) witRepos.length := by
  refine ⟨(C2_bounded_concurrency 2).1 10
      [PoolEvent.start, PoolEvent.start] ⟨8, 2, 0, false⟩ (by decide), ?_, ?_⟩
  · exact ((C2_bounded_concurrency 2).2.2.2.1 (tuiInit witCfg) witRepos rfl
      (by decide)).1
  · exact ((C2_bounded_concurrency 2).2.2.2.1 (tuiInit witCfg) witRepos rfl
      (by decide)).2

/-- C8 counterexample: in the worker-pool orchestrator, cancelling after 5
of 10 descriptors are dispatched does not prevent dispatch of the remaining
descriptors.  `errgroup.Go` admits a queued task whenever a slot frees,
without consulting the cancelled context, so this trace — five dispatches,
cancellation, one completion, then a sixth dispatch — is a valid pool
execution: `queued` drops from 5 to 4 after `cancelled` is already true,
refuting the claim's orchestrator half. -/
theorem C8_cancellation_counterexample :
    runPool 5 (poolInit 10)
      [PoolEvent.start, PoolEvent.start, PoolEvent.start, PoolEvent.start,
       PoolEvent.start, PoolEvent.cancel] =
      some ⟨5, 5, 0, true⟩ ∧
    runPool 5 (poolInit 10)
      [PoolEvent.start, PoolEvent.start, PoolEvent.start, PoolEvent.start,
       PoolEvent.start, PoolEvent.cancel, PoolEvent.finish, PoolEvent.start] =
      some ⟨4, 5, 1, true⟩ :=
  ⟨by decide, by decide⟩

/-- C8 amended: once the user quit signal triggers in the incremental
dispatch state machine, the loop terminates without dispatching any new
per-repository work and all results already delivered are retained (the
model, including `results`, is unchanged).  In the worker-pool
orchestrator, cancellation does NOT prevent dispatch of still-queued
descriptors — dispatch is enabled independently of the cancellation flag,
as queued `errgroup` tasks run once a slot frees and only their
cancellation-aware backend calls fail fast — while results already
produced are retained and in-flight work can still finish. -/
theorem C8_cancellation_amended (limit : Nat) :
    (∀ m : TuiModel,
      (update m TuiMsg.keyQuit).1 = m ∧
      (update m TuiMsg.keyQuit).2 = [TuiCmd.cancelCtx, TuiCmd.quit] ∧
      (update m TuiMsg.keyQuit).2.countP TuiCmd.isDispatch = 0) ∧
    (∀ s : PoolState,
      poolStep limit s PoolEvent.cancel = some { s with cancelled := true }) ∧
    (∀ s : PoolState, 0 < s.active →
      poolStep limit s PoolEvent.finish =
        some { s with active := s.active - 1, done := s.done + 1 }) ∧
    (∀ (s : PoolState) (b : Bool),
      poolStep limit { s with cancelled := b } PoolEvent.start =
        (poolStep limit s PoolEvent.start).map
          (fun s' => { s' with cancelled := b })) := by
  refine ⟨?_, ?_, ?_, ?_⟩
  · intro m
    exact ⟨rfl, rfl, rfl⟩
  · intro s
    rfl
  · intro s h
    unfold poolStep
    rw [if_pos h]
  · intro s b
    unfold poolStep
    by_cases h : 0 < s.queued ∧ s.active < limit
    · rw [if_pos h, if_pos h]
      rfl
    · rw [if_neg h, if_neg h]
      rfl

/-- C8 amended witness: the quit event dispatches nothing; a concrete
cancelled pool retains its produced results and lets in-flight work
finish. -/
theorem C8_cancellation_amended_witness :
    (update (tuiInit witCfg) TuiMsg.keyQuit).2.countP TuiCmd.isDispatch = 0 ∧
    poolStep 5 ⟨5, 5, 0, false⟩ PoolEvent.cancel = some ⟨5, 5, 0, true⟩ ∧
    poolStep 5 ⟨5, 5, 0, true⟩ PoolEvent.finish = some ⟨5, 4, 1, true⟩ :=
  ⟨((C8_cancellation_amended 5).1 (tuiInit witCfg)).2.2,
   (C8_cancellation_amended 5).2.1 ⟨5, 5, 0, false⟩,
   (C8_cancellation_amended 5).2.2.1 ⟨5, 5, 0, true⟩ (by decide)⟩

end GitHerd
